import Mathlib

/-!
Shallow embedding of the png2gif frame-processing pipeline (`src/main.go`).

The pipeline under verification is
  `readImages` (deduplication) → `encodeImgPaletted` (palette quantization)
  → `writeGif` (assembly), orchestrated by `BuildGif`.

External effects are modelled as oracle parameters:
  * opening/decoding a source path (`os.Open` + `image.Decode`) is an oracle
    `decode : String → Except ioFail α` over an abstract image type `α`;
  * the perceptual similarity capability (`images4.Icon`, `images4.PropMetric`,
    `images4.EucMetric`, returning `float64` values compared against fixed
    thresholds) is modelled with icon/metric oracles valued in `ℚ`;
  * the GIF encode/decode round trip inside `encodeImgPaletted`
    (`gif.Encode` then `gif.Decode` then the cast to `*image.Paletted`) is an
    oracle `rt : α → Except String (Option β)`, where `.ok none` models a
    decode result that is not an `*image.Paletted` (the cast fails and the
    destination slot is left nil) and `.error` models an encode/decode error;
  * the nondeterministic completion order of the concurrent encoding
    goroutines is an explicit `order : List Nat` (indices in completion
    order); each task writes only its own slot, under a mutex in the source.

Go `nil` interface values (the `image.Image` field can be nil) are modelled
with `Option`; dereferencing / encoding a nil image, which panics in Go, is
modelled by an explicit panic outcome.  Go `int` is modelled as `Int`; Go
integer division truncates toward zero, which is `Int.tdiv`.
-/

namespace PngToGif

/-- Embeds `imgWithDelay` (src/main.go:55): a frame plus the number of
consecutive source frames it represents.  The `img` field is a Go interface
value and may be nil, hence `Option`. -/
structure imgWithDelay (α : Type) where
  img : Option α
  delay : Int
deriving Repr, DecidableEq

/-- Embeds `palettedWithDelay` (src/main.go:63).  The `paletted` field is
only ever stored non-nil (the slot itself is the nullable pointer), so it is
a plain `β` here. -/
structure palettedWithDelay (β : Type) where
  paletted : β
  delay : Int
deriving Repr, DecidableEq

/-- Embeds the constant `thy` (src/main.go:77): luma distance threshold. -/
def thy : ℚ := 100

/-- Embeds the constant `thCbCr` (src/main.go:78): chroma distance
threshold. -/
def thCbCr : ℚ := 200

/-- The proportion-metric tolerance literal `0.001` of src/main.go:457,
as the rational 1/1000 (written in lowest terms so that kernel reduction of
comparisons does not need `Nat.gcd`). -/
def propTolerance : ℚ := ⟨1, 1000, by decide, Nat.coprime_one_left 1000⟩

/-- Embeds `imagesEqual` (src/main.go:450-469).  `icon` embeds
`images4.Icon`; `propMetric` embeds `images4.PropMetric`; `eucMetric` embeds
`images4.EucMetric` (luma, chroma-b, chroma-r distances). -/
def imagesEqual {α ι : Type} (icon : α → ι) (propMetric : ι → ι → ℚ)
    (eucMetric : ι → ι → ℚ × ℚ × ℚ) (a b : α) : Bool :=
  let iconA := icon a
  let iconB := icon b
  if propMetric iconA iconB > propTolerance then false
  else
    let m := eucMetric iconA iconB
    if m.1 > thy then false
    else if m.2.1 > thCbCr ∨ m.2.2 > thCbCr then false
    else true

/-- Outcome of the file-system/decoder oracle for one source path:
`os.Open` failing, or `image.Decode` failing, with the underlying message. -/
inductive ioFail where
  | openFail (msg : String)
  | decodeFail (msg : String)
deriving Repr, DecidableEq

/-- The error value built by `readImages` (src/main.go:422,428):
`fmt.Errorf("failed to open file (%s): %w", s, err)` respectively
`fmt.Errorf("failed to decode image (%s): %w", s, err)`; kept structured so
the offending path stays recoverable. -/
inductive ReadError where
  | openFailed (path : String) (msg : String)
  | decodeFailed (path : String) (msg : String)
deriving Repr, DecidableEq

/-- The source path named by a `ReadError`. -/
def ReadError.path : ReadError → String
  | .openFailed p _ => p
  | .decodeFailed p _ => p

/-- The loop of `readImages` (src/main.go:419-444), as structural recursion
over the remaining paths, threading the Go locals `images`, `prevImg`,
`delay`.  Mirrors the source: a failed open/decode aborts with the path; a
first frame only seeds `prevImg`; a frame unequal to the representative
flushes `(prevImg, delay)` and restarts the run; an equal frame just
increments `delay` (the representative is kept). -/
def readImagesAux {α : Type} (eq : α → α → Bool)
    (decode : String → Except ioFail α) :
    List String → List (imgWithDelay α) → Option α → Int →
    Except ReadError (List (imgWithDelay α) × Option α × Int)
  | [], images, prevImg, delay => .ok (images, prevImg, delay)
  | s :: rest, images, prevImg, delay =>
    match decode s with
    | .error (.openFail m) => .error (.openFailed s m)
    | .error (.decodeFail m) => .error (.decodeFailed s m)
    | .ok img =>
      match prevImg with
      | some p =>
        if !(eq p img) then
          readImagesAux eq decode rest (images ++ [⟨some p, delay⟩]) (some img) 1
        else
          readImagesAux eq decode rest images (some p) (delay + 1)
      | none => readImagesAux eq decode rest images (some img) delay

/-- Embeds `readImages` (src/main.go:411-448): initial state
`images = []`, `prevImg = nil`, `delay = 1`; after the loop the pair
`(prevImg, delay)` is appended unconditionally (src/main.go:446), even when
the input list was empty and `prevImg` is still nil. -/
def readImages {α : Type} (eq : α → α → Bool)
    (decode : String → Except ioFail α) (files : List String) :
    Except ReadError (List (imgWithDelay α)) :=
  match readImagesAux eq decode files [] none 1 with
  | .error e => .error e
  | .ok (images, prevImg, delay) => .ok (images ++ [⟨prevImg, delay⟩])

/-- Outcome of one encoding goroutine body (src/main.go:485-505). -/
inductive TaskOut (β : Type) where
  | panicked
  | errored (msg : String)
  | wrote (slot : Option (palettedWithDelay β))
deriving Repr, DecidableEq

/-- One encoding goroutine (src/main.go:485-505): `gif.Encode` on a nil
image panics (`.panicked`); an encode/decode error is returned to the
errgroup (`.errored`, slot untouched); if the decoded image casts to
`*image.Paletted` the slot receives the paletted image with the delay of the run
carried over, otherwise the slot is left nil and the goroutine returns no
error. -/
def taskOut {α β : Type} (rt : α → Except String (Option β))
    (im : imgWithDelay α) : TaskOut β :=
  match im.img with
  | none => .panicked
  | some a =>
    match rt a with
    | .error e => .errored e
    | .ok none => .wrote none
    | .ok (some p) => .wrote (some ⟨p, im.delay⟩)

/-- Whether a goroutine panicked. -/
def TaskOut.isPanicked {β : Type} : TaskOut β → Bool
  | .panicked => true
  | _ => false

/-- The error a goroutine handed to the errgroup, if any. -/
def TaskOut.errMsg {β : Type} : TaskOut β → Option String
  | .errored e => some e
  | _ => none

/-- The slot value after the goroutine ran (nil unless a paletted image was
written). -/
def TaskOut.slot {β : Type} : TaskOut β → Option (palettedWithDelay β)
  | .wrote s => s
  | _ => none

/-- Result of `encodeImgPaletted`: a panic in some goroutine, the first
error seen by the errgroup, or the final slot array. -/
inductive EncResult (β : Type) where
  | panic
  | error (msg : String)
  | ok (slots : List (Option (palettedWithDelay β)))
deriving Repr, DecidableEq

/-- Embeds `encodeImgPaletted` (src/main.go:472-512).  `imgp` is pre-sized
to `len(images)` with nil slots; goroutine `ctr` writes only slot `ctr`, so
the slot array does not depend on the completion order `order`.  The
errgroup keeps the first non-nil error in completion order
(`errGroup.Wait`, src/main.go:508); a panicking goroutine crashes the
process. -/
def encodeImgPaletted {α β : Type} (rt : α → Except String (Option β))
    (images : List (imgWithDelay α)) (order : List Nat) : EncResult β :=
  let outs := images.map (taskOut rt)
  if outs.any TaskOut.isPanicked then .panic
  else
    match order.filterMap (fun i => (outs.getD i (.wrote none)).errMsg) with
    | e :: _ => .error e
    | [] => .ok (outs.map TaskOut.slot)

/-- The in-memory `gif.GIF` value assembled by `writeGif`
(src/main.go:516-521): parallel lists `g.Image` and `g.Delay`. -/
structure GoGif (β : Type) where
  image : List β
  delay : List Int
deriving Repr, DecidableEq

/-- Embeds the assembly loop of `writeGif` (src/main.go:515-531):
`g.Delay` entry is `delay * i.delay`.  Each list element is a
`*palettedWithDelay` pointer; dereferencing a nil entry panics in Go,
modelled by `none`.  The `os.Create`/`gif.EncodeAll` file effects are the
external world: the embedding returns the assembled container content. -/
def writeGif {β : Type} (im : List (Option (palettedWithDelay β)))
    (delay : Int) : Option (GoGif β) :=
  match im with
  | [] => some ⟨[], []⟩
  | none :: _ => none
  | some i :: rest =>
    match writeGif rest delay with
    | none => none
    | some g => some ⟨i.paletted :: g.image, delay * i.delay :: g.delay⟩

/-- The per-frame delay unit passed by `BuildGif` to `writeGif`
(src/main.go:537-539,551): `if fps == 0 { fps = 30 }` then the Go integer
division `100 / fps`, which truncates toward zero (`Int.tdiv`). -/
def buildDelayUnit (fps : Int) : Int :=
  Int.tdiv 100 (if fps = 0 then 30 else fps)

/-- Overall outcome of `BuildGif`: the error taxonomy of the core plus the
panic outcome and the successfully assembled (written) GIF. -/
inductive BuildResult (β : Type) where
  | srcError (e : ReadError)
  | encError (msg : String)
  | panic
  | written (g : GoGif β)
deriving Repr, DecidableEq

/-- Embeds `BuildGif` (src/main.go:536-552): normalize fps, read and
deduplicate the frames, palette-encode them concurrently, then assemble and
write.  An error in each stage aborts the pipeline before the next stage runs.
The unused `out` path parameter is kept from the source signature. -/
def BuildGif {α β : Type} (decode : String → Except ioFail α)
    (eq : α → α → Bool) (rt : α → Except String (Option β))
    (order : List Nat) (files : List String) (out : String) (fps : Int) :
    BuildResult β :=
  match readImages eq decode files with
  | .error e => .srcError e
  | .ok img =>
    match encodeImgPaletted rt img order with
    | .panic => .panic
    | .error e => .encError e
    | .ok imp =>
      match writeGif imp (buildDelayUnit fps) with
      | none => .panic
      | some g => .written g

/-- Sum of the repetition counts of a run list. -/
def runSum {α : Type} (l : List (imgWithDelay α)) : Int :=
  (l.map (fun r => r.delay)).sum

/-- The `ReadError` that `readImagesAux` builds when path `s` fails with
outcome `f`. -/
def ioFailToReadError (s : String) : ioFail → ReadError
  | .openFail m => .openFailed s m
  | .decodeFail m => .decodeFailed s m

theorem runSum_append_single {α : Type} (l : List (imgWithDelay α))
    (x : imgWithDelay α) : runSum (l ++ [x]) = runSum l + x.delay := by
  simp [runSum]

/-- Loop invariant of `readImages`: starting from a seeded representative,
the flushed counts plus the pending count grow by exactly one per consumed
frame, and the representative never becomes nil again. -/
theorem readImagesAux_some_sum {α : Type} (eq : α → α → Bool)
    (decode : String → Except ioFail α) :
    ∀ (fs : List String) (images : List (imgWithDelay α)) (p : α)
      (delay : Int) (is' : List (imgWithDelay α)) (pr' : Option α) (d' : Int),
      readImagesAux eq decode fs images (some p) delay = .ok (is', pr', d') →
      (∃ q, pr' = some q) ∧
        runSum is' + d' = runSum images + delay + fs.length := by
  intro fs
  induction fs with
  | nil =>
    intro images p delay is' pr' d' h
    simp only [readImagesAux] at h
    cases h
    exact ⟨⟨p, rfl⟩, by simp⟩
  | cons s rest ih =>
    intro images p delay is' pr' d' h
    rw [readImagesAux] at h
    cases hdec : decode s with
    | error e => cases e <;> rw [hdec] at h <;> simp at h
    | ok img =>
      rw [hdec] at h
      by_cases heq : eq p img = true
      · simp only [heq, Bool.not_true, Bool.false_eq_true, if_false] at h
        have := ih images p (delay + 1) is' pr' d' h
        refine ⟨this.1, ?_⟩
        have h2 := this.2
        simp only [List.length_cons]
        push_cast
        push_cast at h2
        omega
      · rw [Bool.not_eq_true] at heq
        simp only [heq, Bool.not_false, if_true] at h
        have := ih (images ++ [⟨some p, delay⟩]) img 1 is' pr' d' h
        refine ⟨this.1, ?_⟩
        have h2 := this.2
        rw [runSum_append_single] at h2
        simp only [List.length_cons]
        push_cast
        push_cast at h2
        omega

/-- Loop invariant of `readImages`: the pending count and every flushed
count stay at least 1. -/
theorem readImagesAux_delay_ge_one {α : Type} (eq : α → α → Bool)
    (decode : String → Except ioFail α) :
    ∀ (fs : List String) (images : List (imgWithDelay α)) (prev : Option α)
      (delay : Int) (is' : List (imgWithDelay α)) (pr' : Option α) (d' : Int),
      readImagesAux eq decode fs images prev delay = .ok (is', pr', d') →
      (∀ r ∈ images, 1 ≤ r.delay) → 1 ≤ delay →
      (∀ r ∈ is', 1 ≤ r.delay) ∧ 1 ≤ d' := by
  intro fs
  induction fs with
  | nil =>
    intro images prev delay is' pr' d' h hims hd
    simp only [readImagesAux] at h
    cases h
    exact ⟨hims, hd⟩
  | cons s rest ih =>
    intro images prev delay is' pr' d' h hims hd
    rw [readImagesAux] at h
    cases hdec : decode s with
    | error e => cases e <;> rw [hdec] at h <;> simp at h
    | ok img =>
      rw [hdec] at h
      cases prev with
      | none => exact ih images (some img) delay is' pr' d' h hims hd
      | some p =>
        by_cases heq : eq p img = true
        · simp only [heq, Bool.not_true, Bool.false_eq_true, if_false] at h
          exact ih images (some p) (delay + 1) is' pr' d' h hims (by omega)
        · rw [Bool.not_eq_true] at heq
          simp only [heq, Bool.not_false, if_true] at h
          refine ih (images ++ [⟨some p, delay⟩]) img 1 is' pr' d' h ?_ (by omega)
          intro r hr
          rcases List.mem_append.1 hr with hr | hr
          · exact hims r hr
          · simp at hr
            subst hr
            exact hd

/-- Loop invariant of `readImages`: when every remaining frame decodes and
is judged equal to the current representative, the loop only counts. -/
theorem readImagesAux_all_equal {α : Type} (eq : α → α → Bool)
    (decode : String → Except ioFail α) :
    ∀ (fs : List String) (images : List (imgWithDelay α)) (p : α)
      (delay : Int),
      (∀ s ∈ fs, ∃ a, decode s = .ok a) →
      (∀ s ∈ fs, ∀ b, decode s = .ok b → eq p b = true) →
      readImagesAux eq decode fs images (some p) delay =
        .ok (images, some p, delay + fs.length) := by
  intro fs
  induction fs with
  | nil => intro images p delay _ _; simp [readImagesAux]
  | cons s rest ih =>
    intro images p delay hdec heq
    obtain ⟨a, ha⟩ := hdec s (by simp)
    rw [readImagesAux, ha]
    have hpa : eq p a = true := heq s (by simp) a ha
    simp only [hpa, Bool.not_true, Bool.false_eq_true, if_false]
    rw [ih images p (delay + 1) (fun t ht => hdec t (by simp [ht]))
      (fun t ht b hb => heq t (by simp [ht]) b hb)]
    have hlen : delay + 1 + (rest.length : Int) =
        delay + ((s :: rest).length : Int) := by
      simp only [List.length_cons]
      push_cast
      omega
    rw [hlen]

/-- Claim C2, counterexample: for the empty input list, `readImages`
succeeds with a single run of count 1, so the counts sum to 1 while the
input has 0 frames. -/
theorem c2_counterexample :
    readImages (fun _ _ => true) (fun _ => Except.ok ()) ([] : List String) =
      .ok [⟨none, 1⟩] ∧
    ¬ runSum [(⟨none, 1⟩ : imgWithDelay Unit)] =
        ((([] : List String)).length : Int) := by
  refine ⟨rfl, ?_⟩
  simp [runSum]

/-- Claim C2, amended: for every NON-EMPTY input list that `readImages`
processes successfully, the repetition counts of the emitted runs sum
exactly to the number of input frames. -/
theorem c2_counts_sum_to_input_length {α : Type} (eq : α → α → Bool)
    (decode : String → Except ioFail α) (files : List String)
    (hne : files ≠ []) (l : List (imgWithDelay α))
    (h : readImages eq decode files = .ok l) :
    runSum l = (files.length : Int) := by
  cases files with
  | nil => exact absurd rfl hne
  | cons f fs =>
    rw [readImages] at h
    cases haux : readImagesAux eq decode (f :: fs) [] none 1 with
    | error e => rw [haux] at h; simp at h
    | ok t =>
      obtain ⟨is1, pr1, d1⟩ := t
      rw [haux] at h
      cases h
      rw [readImagesAux] at haux
      cases hdec : decode f with
      | error e => cases e <;> rw [hdec] at haux <;> simp at haux
      | ok a =>
        rw [hdec] at haux
        have hsum :=
          (readImagesAux_some_sum eq decode fs [] a 1 is1 pr1 d1 haux).2
        rw [runSum_append_single]
        simp only [runSum, List.map_nil, List.sum_nil, List.length_cons] at hsum ⊢
        push_cast at hsum ⊢
        omega

/-- Witness for the amended C2 at the one-file input. -/
theorem c2_counts_sum_witness :
    runSum [(⟨some (), 1⟩ : imgWithDelay Unit)] =
      (((["a"] : List String)).length : Int) :=
  c2_counts_sum_to_input_length (fun _ _ => true) (fun _ => .ok ()) ["a"]
    (by simp) [⟨some (), 1⟩] rfl

/-- Claim C3, counterexample: for the empty input list, `readImages` emits
one run (with nil representative), not zero runs. -/
theorem c3_counterexample :
    readImages (fun _ _ => true) (fun _ => Except.ok ()) ([] : List String) =
      .ok [⟨none, 1⟩] ∧
    ([(⟨none, 1⟩ : imgWithDelay Unit)]).length ≠ 0 :=
  ⟨rfl, by decide⟩

/-- Claim C3, amended: for an empty input path sequence `readImages` emits
exactly one run, whose representative is nil and whose repetition count is
1; `BuildGif` then neither reports a source error nor produces a zero-frame
GIF: the nil representative reaches the palette encoder, whose
`gif.Encode` call dereferences the nil image, i.e. a Go panic. -/
theorem c3_empty_input :
    ∀ (α β : Type) (eq : α → α → Bool) (decode : String → Except ioFail α)
      (rt : α → Except String (Option β)) (order : List Nat) (out : String)
      (fps : Int),
      readImages eq decode [] = .ok [⟨none, 1⟩] ∧
      BuildGif decode eq rt order [] out fps = .panic := by
  intro α β eq decode rt order out fps
  exact ⟨rfl, rfl⟩

/-- Claim C7: a non-empty input whose every later frame decodes and is
judged identical to the first (representative) frame yields exactly one
run, counting all input frames. -/
theorem c7_all_identical {α : Type} (eq : α → α → Bool)
    (decode : String → Except ioFail α) (f : String) (fs : List String)
    (a₀ : α) (h₀ : decode f = .ok a₀)
    (hdec : ∀ s ∈ fs, ∃ a, decode s = .ok a)
    (heq : ∀ s ∈ fs, ∀ b, decode s = .ok b → eq a₀ b = true) :
    readImages eq decode (f :: fs) =
      .ok [⟨some a₀, ((f :: fs).length : Int)⟩] := by
  have hlen : (1 : Int) + fs.length = ((f :: fs).length : Int) := by
    simp only [List.length_cons]
    push_cast
    omega
  rw [readImages, readImagesAux, h₀]
  simp only [readImagesAux_all_equal eq decode fs [] a₀ 1 hdec heq, hlen,
    List.nil_append]

/-- Witness for C7 at a concrete two-frame all-identical input. -/
theorem c7_all_identical_witness :
    readImages (fun _ _ => true) (fun _ => Except.ok ()) ["x", "y"] =
      .ok [⟨some (), (((["x", "y"] : List String)).length : Int)⟩] :=
  c7_all_identical (fun _ _ => true) (fun _ => .ok ()) "x" ["y"] () rfl
    (fun _ _ => ⟨(), rfl⟩) (fun _ _ _ _ => rfl)

/-- Claim C8: every run emitted by a successful `readImages` has
repetition count at least 1, for every input sequence. -/
theorem c8_counts_ge_one {α : Type} (eq : α → α → Bool)
    (decode : String → Except ioFail α) (files : List String)
    (l : List (imgWithDelay α)) (h : readImages eq decode files = .ok l) :
    ∀ r ∈ l, 1 ≤ r.delay := by
  rw [readImages] at h
  cases haux : readImagesAux eq decode files [] none 1 with
  | error e => rw [haux] at h; simp at h
  | ok t =>
    obtain ⟨is1, pr1, d1⟩ := t
    rw [haux] at h
    cases h
    have hinv := readImagesAux_delay_ge_one eq decode files [] none 1
      is1 pr1 d1 haux (by simp) (by omega)
    intro r hr
    rcases List.mem_append.1 hr with hr | hr
    · exact hinv.1 r hr
    · simp at hr
      subst hr
      exact hinv.2

/-- Witness for C8 at a concrete one-file input. -/
theorem c8_counts_ge_one_witness :
    1 ≤ ((⟨some (), 1⟩ : imgWithDelay Unit)).delay :=
  c8_counts_ge_one (fun _ _ => true) (fun _ => .ok ()) ["a"]
    [⟨some (), 1⟩] rfl ⟨some (), 1⟩ (List.mem_singleton.mpr rfl)

/-- When every goroutine has a real (non-nil) image and its round trip
returns without error, `encodeImgPaletted` returns the slot array, whatever
the completion order: each goroutine writes only its own slot. -/
theorem encodeImgPaletted_no_error {α β : Type}
    (rt : α → Except String (Option β)) (images : List (imgWithDelay α))
    (order : List Nat)
    (h : ∀ im ∈ images, ∃ a o, im.img = some a ∧ rt a = .ok o) :
    encodeImgPaletted rt images order =
      .ok (images.map (fun im => (taskOut rt im).slot)) := by
  have houts : ∀ t ∈ images.map (taskOut rt),
      t.isPanicked = false ∧ t.errMsg = none := by
    intro t ht
    obtain ⟨im, him, rfl⟩ := List.mem_map.1 ht
    obtain ⟨a, o, ha, ho⟩ := h im him
    cases o <;>
      simp [taskOut, ha, ho, TaskOut.isPanicked, TaskOut.errMsg]
  have hany : (images.map (taskOut rt)).any TaskOut.isPanicked = false := by
    rw [List.any_eq_false]
    intro t ht
    simp [(houts t ht).1]
  have hfm : order.filterMap
      (fun i => ((images.map (taskOut rt)).getD i (.wrote none)).errMsg) =
        [] := by
    rw [List.filterMap_eq_nil_iff]
    intro i _
    rcases h2 : (images.map (taskOut rt))[i]? with _ | t
    · simp [List.getD_eq_getElem?_getD, h2, TaskOut.errMsg]
    · simp [List.getD_eq_getElem?_getD, h2,
        (houts t (List.getElem?_mem h2)).2]
  simp only [encodeImgPaletted, hany, Bool.false_eq_true, if_false, hfm,
    List.map_map]
  rfl

/-- Claim C5: when the round trip of every run succeeds with a paletted image,
`encodeImgPaletted` returns, for any completion order, one result per run
at the index of the run itself, with its repetition count carried over
unchanged. -/
theorem c5_encode_preserves_counts :
    ∀ (α β : Type) (rt : α → Except String (Option β))
      (images : List (imgWithDelay α)),
      (∀ im ∈ images, ∃ a p, im.img = some a ∧ rt a = .ok (some p)) →
      ∀ order : List Nat,
        ∃ l, encodeImgPaletted rt images order = .ok l ∧
          l.length = images.length ∧
          ∀ (i : Nat) (im : imgWithDelay α), images[i]? = some im →
            ∃ a p, im.img = some a ∧ rt a = .ok (some p) ∧
              l[i]? = some (some ⟨p, im.delay⟩) := by
  intro α β rt images h order
  refine ⟨images.map (fun im => (taskOut rt im).slot),
    encodeImgPaletted_no_error rt images order (fun im him => by
      obtain ⟨a, p, ha, hp⟩ := h im him
      exact ⟨a, some p, ha, hp⟩), by simp, ?_⟩
  intro i im hm
  obtain ⟨a, p, ha, hp⟩ := h im (List.getElem?_mem hm)
  refine ⟨a, p, ha, hp, ?_⟩
  rw [List.getElem?_map, hm]
  simp [taskOut, ha, hp, TaskOut.slot]

/-- Witness for C5 at a one-run input with an identity round trip. -/
theorem c5_encode_preserves_counts_witness :
    ∃ l, encodeImgPaletted
        (fun a : Nat => (Except.ok (some a) : Except String (Option Nat)))
        [(⟨some 5, 3⟩ : imgWithDelay Nat)] [0] = .ok l ∧
      l.length = [(⟨some 5, 3⟩ : imgWithDelay Nat)].length ∧
      ∀ (i : Nat) (im : imgWithDelay Nat),
        ([(⟨some 5, 3⟩ : imgWithDelay Nat)])[i]? = some im →
        ∃ a p, im.img = some a ∧
          (fun a : Nat => (Except.ok (some a) : Except String (Option Nat))) a
            = Except.ok (some p) ∧
          l[i]? = some (some ⟨p, im.delay⟩) :=
  c5_encode_preserves_counts Nat Nat _ _
    (by
      intro im him
      simp only [List.mem_singleton] at him
      subst him
      exact ⟨5, 5, rfl, rfl⟩) [0]

/-- Claim C9: a run whose GIF round trip decodes to something that is not
an `*image.Paletted` (`rt a = .ok none`) leaves its slot nil, and as long
as no goroutine errors or panics, `encodeImgPaletted` still returns
successfully, so the nil entry flows on to the assembler input. -/
theorem c9_cast_failure_leaves_nil_slot :
    ∀ (α β : Type) (rt : α → Except String (Option β))
      (images : List (imgWithDelay α)),
      (∀ im ∈ images, ∃ a o, im.img = some a ∧ rt a = .ok o) →
      ∀ (i : Nat) (im : imgWithDelay α), images[i]? = some im →
      ∀ a, im.img = some a → rt a = .ok none →
      ∀ order : List Nat,
        ∃ l, encodeImgPaletted rt images order = .ok l ∧
          l[i]? = some none := by
  intro α β rt images h i im hm a ha hnone order
  refine ⟨images.map (fun im => (taskOut rt im).slot),
    encodeImgPaletted_no_error rt images order h, ?_⟩
  rw [List.getElem?_map, hm]
  simp [taskOut, ha, hnone, TaskOut.slot]

/-- Witness for C9 at a one-run input whose cast fails. -/
theorem c9_cast_failure_witness :
    ∃ l, encodeImgPaletted
        (fun _ : Nat => (Except.ok none : Except String (Option Nat)))
        [(⟨some 5, 3⟩ : imgWithDelay Nat)] [0] = .ok l ∧
      l[0]? = some none :=
  c9_cast_failure_leaves_nil_slot Nat Nat _ _
    (by
      intro im him
      simp only [List.mem_singleton] at him
      subst him
      exact ⟨5, none, rfl, rfl⟩)
    0 ⟨some 5, 3⟩ rfl 5 rfl rfl [0]

/-- `writeGif` on an all-non-nil slot list assembles the frames in order
and multiplies the global delay unit by the repetition count of each run. -/
theorem writeGif_map_some {β : Type} (pl : List (palettedWithDelay β))
    (d : Int) :
    writeGif (pl.map some) d =
      some ⟨pl.map (fun r => r.paletted), pl.map (fun r => d * r.delay)⟩ := by
  induction pl with
  | nil => rfl
  | cons p rest ih =>
    rw [List.map_cons, writeGif, ih]
    rfl

/-- Claim C1: fps 0 is replaced by 30 before the division (so `BuildGif`
at fps 0 and fps 30 agree on all inputs), and for positive fps every
persisted delay of every stored frame is `floor(100 / fps)` times the
repetition count of its run. -/
theorem c1_delay_formula :
    (∀ (α β : Type) (decode : String → Except ioFail α) (eq : α → α → Bool)
       (rt : α → Except String (Option β)) (order : List Nat)
       (files : List String) (out : String),
       BuildGif decode eq rt order files out 0 =
         BuildGif decode eq rt order files out 30) ∧
    (∀ fps : Int, 0 < fps → ∀ (β : Type) (pl : List (palettedWithDelay β)),
       writeGif (pl.map some) (buildDelayUnit fps) =
         some ⟨pl.map (fun r => r.paletted),
               pl.map (fun r => Int.fdiv 100 fps * r.delay)⟩) := by
  constructor
  · intro α β decode eq rt order files out
    rfl
  · intro fps hfps β pl
    have hunit : buildDelayUnit fps = Int.fdiv 100 fps := by
      rw [buildDelayUnit, if_neg (by omega : ¬ fps = 0),
        Int.tdiv_eq_ediv (by omega) (by omega),
        Int.fdiv_eq_ediv _ (by omega)]
    rw [hunit, writeGif_map_some]

/-- Witness for C1 at fps 4 and a single run of count 2. -/
theorem c1_delay_formula_witness :
    (BuildGif (fun _ => Except.ok ()) (fun _ _ => true)
        (fun _ : Unit => Except.ok (some (7 : Nat))) [0] ["a"] "o" 0 =
      BuildGif (fun _ => Except.ok ()) (fun _ _ => true)
        (fun _ : Unit => Except.ok (some (7 : Nat))) [0] ["a"] "o" 30) ∧
    writeGif ([(⟨0, 2⟩ : palettedWithDelay Nat)].map some)
        (buildDelayUnit 4) =
      some ⟨[(⟨0, 2⟩ : palettedWithDelay Nat)].map (fun r => r.paletted),
            [(⟨0, 2⟩ : palettedWithDelay Nat)].map
              (fun r => Int.fdiv 100 4 * r.delay)⟩ :=
  ⟨c1_delay_formula.1 Unit Nat _ _ _ [0] ["a"] "o",
   c1_delay_formula.2 4 (by decide) Nat [⟨0, 2⟩]⟩

/-- Claim C10: for fps strictly greater than 100 the delay unit computed
by `BuildGif` is `100 / fps = 0`, so every assembled frame is stored with
delay 0 regardless of its repetition count. -/
theorem c10_high_fps_zero_delay :
    ∀ fps : Int, 100 < fps →
      buildDelayUnit fps = 0 ∧
      ∀ (β : Type) (pl : List (palettedWithDelay β)) (g : GoGif β),
        writeGif (pl.map some) (buildDelayUnit fps) = some g →
        ∀ d ∈ g.delay, d = 0 := by
  intro fps hfps
  have hunit : buildDelayUnit fps = 0 := by
    rw [buildDelayUnit, if_neg (by omega : ¬ fps = 0)]
    exact Int.tdiv_eq_zero_of_lt (by omega) (by omega)
  refine ⟨hunit, ?_⟩
  intro β pl g hg
  rw [writeGif_map_some] at hg
  cases hg
  intro d hd
  rcases List.mem_map.1 hd with ⟨r, _, rfl⟩
  rw [hunit, Int.zero_mul]

/-- The deduplication loop aborts at the first failing path: whatever the
accumulated state, if path `j` fails and every earlier path decodes, the
loop returns the error built from path `j`, untouched by anything after
position `j`. -/
theorem readImagesAux_first_error {α : Type} (eq : α → α → Bool)
    (decode : String → Except ioFail α) :
    ∀ (fs : List String) (j : Nat) (hj : j < fs.length) (f : ioFail),
      decode fs[j] = .error f →
      (∀ (k : Nat) (hk : k < fs.length), k < j →
        ∃ a, decode fs[k] = .ok a) →
      ∀ (images : List (imgWithDelay α)) (prev : Option α) (delay : Int),
        readImagesAux eq decode fs images prev delay =
          .error (ioFailToReadError fs[j] f) := by
  intro fs
  induction fs with
  | nil => intro j hj; simp at hj
  | cons s rest ih =>
    intro j hj f hfail hok images prev delay
    cases j with
    | zero =>
      rw [readImagesAux]
      simp only [List.getElem_cons_zero] at hfail ⊢
      rw [hfail]
      cases f <;> rfl
    | succ jj =>
      obtain ⟨a, ha⟩ := hok 0 (by omega) (by omega)
      simp only [List.getElem_cons_zero] at ha
      rw [readImagesAux, ha]
      have hj2 : jj < rest.length := by
        simp only [List.length_cons] at hj
        omega
      have hfail2 : decode rest[jj] = .error f := by
        simpa using hfail
      have hok2 : ∀ (k : Nat) (hk : k < rest.length), k < jj →
          ∃ b, decode rest[k] = .ok b := by
        intro k hk hklt
        have hkk : k + 1 < (s :: rest).length := by
          simp only [List.length_cons]
          omega
        have := hok (k + 1) hkk (by omega)
        simpa using this
      have hgoal : ((s :: rest)[jj + 1] : String) = rest[jj] := by
        simp
      rw [hgoal]
      cases prev with
      | none => exact ih jj hj2 f hfail2 hok2 images (some a) delay
      | some p =>
        cases heq : eq p a with
        | false =>
          simp only [heq, Bool.not_false, if_true]
          exact ih jj hj2 f hfail2 hok2 (images ++ [⟨some p, delay⟩])
            (some a) 1
        | true =>
          simp only [heq, Bool.not_true, Bool.false_eq_true, if_false]
          exact ih jj hj2 f hfail2 hok2 images (some p) (delay + 1)

/-- Claim C6: if a listed path fails to open or decode, `BuildGif` aborts
with a source error naming the first failing path, the result does not
depend on the outcome of any later path (no frame after the failing one is
processed), and the assembler/write stage is never reached (no output is
produced). -/
theorem c6_source_error_aborts :
    ∀ (α β : Type) (decode : String → Except ioFail α) (eq : α → α → Bool)
      (rt : α → Except String (Option β)) (order : List Nat)
      (files : List String) (out : String) (fps : Int)
      (j : Nat) (hj : j < files.length) (f : ioFail),
      decode files[j] = .error f →
      (∀ (k : Nat) (hk : k < files.length), k < j →
        ∃ a, decode files[k] = .ok a) →
      (BuildGif decode eq rt order files out fps =
          .srcError (ioFailToReadError files[j] f) ∧
        (ioFailToReadError files[j] f).path = files[j]) ∧
      (∀ decode₂ : String → Except ioFail α,
        (∀ (k : Nat) (hk : k < files.length), k ≤ j →
          decode₂ files[k] = decode files[k]) →
        BuildGif decode₂ eq rt order files out fps =
          BuildGif decode eq rt order files out fps) := by
  intro α β decode eq rt order files out fps j hj f hfail hok
  have key : ∀ d : String → Except ioFail α, d files[j] = .error f →
      (∀ (k : Nat) (hk : k < files.length), k < j →
        ∃ a, d files[k] = .ok a) →
      BuildGif d eq rt order files out fps =
        .srcError (ioFailToReadError files[j] f) := by
    intro d hf ho
    rw [BuildGif, readImages,
      readImagesAux_first_error eq d files j hj f hf ho [] none 1]
  refine ⟨⟨key decode hfail hok, ?_⟩, ?_⟩
  · cases f <;> rfl
  · intro decode₂ hagree
    rw [key decode hfail hok, key decode₂ ?_ ?_]
    · rw [hagree j hj (le_refl j)]
      exact hfail
    · intro k hk hklt
      rw [hagree k hk (le_of_lt hklt)]
      exact hok k hk hklt

/-- Witness for C6 at a two-file input whose second file fails to decode. -/
theorem c6_source_error_aborts_witness :
    (BuildGif
        (fun s => if s = "b" then .error (.decodeFail "bad") else .ok ())
        (fun _ _ => true) (fun _ : Unit => (.ok (some 7) : Except String (Option Nat)))
        [0, 1] ["a", "b"] "o" 30 =
        .srcError (ioFailToReadError (["a", "b"])[1] (.decodeFail "bad")) ∧
      (ioFailToReadError (["a", "b"])[1] (ioFail.decodeFail "bad")).path =
        (["a", "b"])[1]) ∧
    (∀ decode₂ : String → Except ioFail Unit,
      (∀ (k : Nat) (hk : k < (["a", "b"] : List String).length), k ≤ 1 →
        decode₂ (["a", "b"])[k] =
          (fun s => if s = "b" then .error (.decodeFail "bad") else .ok ())
            (["a", "b"])[k]) →
      BuildGif decode₂ (fun _ _ => true)
          (fun _ : Unit => (.ok (some 7) : Except String (Option Nat)))
          [0, 1] ["a", "b"] "o" 30 =
        BuildGif
          (fun s => if s = "b" then .error (.decodeFail "bad") else .ok ())
          (fun _ _ => true)
          (fun _ : Unit => (.ok (some 7) : Except String (Option Nat)))
          [0, 1] ["a", "b"] "o" 30) :=
  c6_source_error_aborts Unit Nat
    (fun s => if s = "b" then .error (.decodeFail "bad") else .ok ())
    (fun _ _ => true) (fun _ => .ok (some 7)) [0, 1] ["a", "b"] "o" 30
    1 (by decide) (.decodeFail "bad") rfl
    (by
      intro k hk hklt
      have : k = 0 := by omega
      subst this
      exact ⟨(), rfl⟩)

/-- Characterization of `imagesEqual`: both frames pass exactly when the
proportion metric and all three distance components are within the
thresholds. -/
theorem imagesEqual_eq_true_iff {α ι : Type} (icon : α → ι)
    (pm : ι → ι → ℚ) (em : ι → ι → ℚ × ℚ × ℚ) (a b : α) :
    imagesEqual icon pm em a b = true ↔
      pm (icon a) (icon b) ≤ propTolerance ∧
      (em (icon a) (icon b)).1 ≤ thy ∧
      (em (icon a) (icon b)).2.1 ≤ thCbCr ∧
      (em (icon a) (icon b)).2.2 ≤ thCbCr := by
  simp only [imagesEqual]
  split_ifs with h1 h2 h3
  · simp [not_le.mpr h1]
  · simp [not_le.mpr h2]
  · rcases h3 with h3 | h3
    · simp [not_le.mpr h3]
    · simp [not_le.mpr h3]
  · push_neg at h3
    simp [not_lt.mp h1, not_lt.mp h2, h3.1, h3.2]

/-- Claim C4: the thresholds are 0.001, 100, 200; a proportion difference
above the tolerance is conclusive regardless of the distance metric (the
distance test is not consulted); a luma distance above 100 or a chroma
distance above 200 forces "different"; and within all thresholds the
frames are declared identical. -/
theorem c4_similarity_thresholds :
    propTolerance = 1 / 1000 ∧ thy = 100 ∧ thCbCr = 200 ∧
    ∀ (α ι : Type) (icon : α → ι) (pm : ι → ι → ℚ)
      (em : ι → ι → ℚ × ℚ × ℚ) (a b : α),
      (pm (icon a) (icon b) > propTolerance →
        ∀ em₂ : ι → ι → ℚ × ℚ × ℚ, imagesEqual icon pm em₂ a b = false) ∧
      ((em (icon a) (icon b)).1 > thy → imagesEqual icon pm em a b = false) ∧
      ((em (icon a) (icon b)).2.1 > thCbCr ∨
          (em (icon a) (icon b)).2.2 > thCbCr →
        imagesEqual icon pm em a b = false) ∧
      (pm (icon a) (icon b) ≤ propTolerance ∧
          (em (icon a) (icon b)).1 ≤ thy ∧
          (em (icon a) (icon b)).2.1 ≤ thCbCr ∧
          (em (icon a) (icon b)).2.2 ≤ thCbCr →
        imagesEqual icon pm em a b = true) := by
  refine ⟨?_, rfl, rfl, ?_⟩
  · rw [propTolerance, Rat.mk'_eq_divInt, Rat.divInt_eq_div]
    norm_num
  intro α ι icon pm em a b
  refine ⟨?_, ?_, ?_, ?_⟩
  · intro h em₂
    rw [Bool.eq_false_iff, Ne, imagesEqual_eq_true_iff]
    intro hc
    exact absurd hc.1 (not_le.mpr h)
  · intro h
    rw [Bool.eq_false_iff, Ne, imagesEqual_eq_true_iff]
    intro hc
    exact absurd hc.2.1 (not_le.mpr h)
  · intro h
    rw [Bool.eq_false_iff, Ne, imagesEqual_eq_true_iff]
    intro hc
    rcases h with h | h
    · exact absurd hc.2.2.1 (not_le.mpr h)
    · exact absurd hc.2.2.2 (not_le.mpr h)
  · intro h
    exact (imagesEqual_eq_true_iff icon pm em a b).mpr h

/-- Witness for C4: each branch exercised at concrete metric values. -/
theorem c4_similarity_thresholds_witness :
    imagesEqual (fun x : Unit => x) (fun _ _ => (1 : ℚ))
        (fun _ _ => ((0 : ℚ), 0, 0)) () () = false ∧
    imagesEqual (fun x : Unit => x) (fun _ _ => (0 : ℚ))
        (fun _ _ => ((200 : ℚ), 0, 0)) () () = false ∧
    imagesEqual (fun x : Unit => x) (fun _ _ => (0 : ℚ))
        (fun _ _ => ((0 : ℚ), 300, 0)) () () = false ∧
    imagesEqual (fun x : Unit => x) (fun _ _ => (0 : ℚ))
        (fun _ _ => ((0 : ℚ), 0, 0)) () () = true :=
  ⟨(c4_similarity_thresholds.2.2.2 Unit Unit (fun x => x) (fun _ _ => 1)
      (fun _ _ => (0, 0, 0)) () ()).1 (by decide) (fun _ _ => (0, 0, 0)),
   (c4_similarity_thresholds.2.2.2 Unit Unit (fun x => x) (fun _ _ => 0)
      (fun _ _ => (200, 0, 0)) () ()).2.1 (by decide),
   (c4_similarity_thresholds.2.2.2 Unit Unit (fun x => x) (fun _ _ => 0)
      (fun _ _ => (0, 300, 0)) () ()).2.2.1 (Or.inl (by decide)),
   (c4_similarity_thresholds.2.2.2 Unit Unit (fun x => x) (fun _ _ => 0)
      (fun _ _ => (0, 0, 0)) () ()).2.2.2
     ⟨by decide, by decide, by decide, by decide⟩⟩

/-- Witness for C10 at fps 101 and a single run of count 2. -/
theorem c10_high_fps_zero_delay_witness :
    buildDelayUnit 101 = 0 ∧
    ∀ d ∈ GoGif.delay (⟨[0], [0]⟩ : GoGif Nat), d = 0 :=
  ⟨(c10_high_fps_zero_delay 101 (by decide)).1,
   (c10_high_fps_zero_delay 101 (by decide)).2 Nat [⟨0, 2⟩] ⟨[0], [0]⟩
     (by decide)⟩

end PngToGif
